import Mathlib

/-!
# Verification of the medical-receipt-organizer core

Shallow embedding of the repository `receipt_organizer` (Python) into Lean:

* `models.py` — `ReceiptData` and `ReceiptData.from_json` (LLM-response parsing);
* `renamer.py` — `FileRenamer.sanitize`, `format_amount`, `generate_new_name`,
  `resolve_conflict`, `execute_rename`;
* `processor.py` — `FileProcessor.discover_files`;
* `cli.py` — `ProcessResult` and `process_single_file`.

Modelling conventions:

* Python exceptions escaping a function are modelled with `Except String`;
  functions that the source cannot observably raise from are plain functions.
* Python `float` amounts are modelled exactly, as decimals `Dec`
  (an integer mantissa scaled by a power of ten, with `Dec.toRat` as the
  rational value); the claims under check are about which numeral is parsed
  or printed, not about binary floating-point representation.
* `json.loads` is modelled by a strict recursive-descent JSON parser
  (`json_loads`) over the inputs the program can meet: the standard value,
  number and string grammar plus the non-standard `NaN`/`Infinity`/
  `-Infinity` constants the stdlib scanner accepts by default.  Character
  classes (`\w`, digits) are modelled over ASCII, and resource exhaustion
  (CPython's recursion limit on pathologically nested values, memory) is not
  modelled.
* Filesystem paths are modelled as lists of segments; a directory's contents
  as the list of entry names; `Path.resolve` as lexical normalisation of
  `.`/`..` segments (symlinks are out of scope).
* `ReceiptData` fields carry the dataclass's annotated types
  (`str | None`, `float | None`, `str`, `bool`).  `from_json` coerces decoded
  JSON field values at those types: a JSON value of a different type for a
  field (which CPython would store unchecked) is outside every claim checked
  here and is mapped to the field's default; `is_medical_receipt` is coerced
  by Python truthiness, matching its only downstream use.
-/

namespace ReceiptOrganizer

/-- The two brace characters, named to keep them out of literals. -/
def lbrace : Char := Char.ofNat 123

def rbrace : Char := Char.ofNat 125

/-! ## Exact decimal numbers

Python's `json.loads` and `float` produce binary doubles; every claim here is
about which decimal numeral is obtained, so numbers are carried exactly:
`⟨m, k⟩` denotes `m / 10 ^ k`. -/

/-- An exact decimal: `mant / 10 ^ exp10`. -/
structure Dec where
  mant : ℤ
  exp10 : ℕ
deriving DecidableEq

/-- The rational value of a decimal. -/
def Dec.toRat (d : Dec) : ℚ := (d.mant : ℚ) / (10 : ℚ) ^ d.exp10

/-! ## A model of Python `json.loads` -/

/-- JSON values as produced by `json.loads`: finite numbers as exact
decimals, plus the non-finite floats `nan` and `inf` (the latter with its
sign) that the scanner's `NaN`/`Infinity`/`-Infinity` constants decode to. -/
inductive Json where
  | null : Json
  | bool : Bool → Json
  | num : Dec → Json
  | nan : Json
  | inf : Bool → Json
  | str : String → Json
  | arr : List Json → Json
  | obj : List (String × Json) → Json

/-- Skip JSON whitespace (space, tab, newline, carriage return). -/
def skipWs : List Char → List Char
  | [] => []
  | c :: rest =>
    if c = ' ' ∨ c = '\t' ∨ c = '\n' ∨ c = '\r' then skipWs rest else c :: rest

/-- Value of a hexadecimal digit. -/
def hexVal (c : Char) : Option Nat :=
  if c.isDigit then some (c.toNat - 48)
  else if 'a' ≤ c ∧ c ≤ 'f' then some (c.toNat - 87)
  else if 'A' ≤ c ∧ c ≤ 'F' then some (c.toNat - 55)
  else none

/-- Body of a JSON string literal after the opening quote; `acc` holds the
decoded characters in reverse. -/
def parseStrAux : List Char → List Char → Except String (String × List Char)
  | [], _ => .error "Unterminated string"
  | c :: rest, acc =>
    if c = '"' then .ok (String.mk acc.reverse, rest)
    else if c = '\\' then
      match rest with
      | [] => .error "Unterminated string"
      | e :: rest2 =>
        if e = '"' ∨ e = '\\' ∨ e = '/' then parseStrAux rest2 (e :: acc)
        else if e = 'n' then parseStrAux rest2 ('\n' :: acc)
        else if e = 't' then parseStrAux rest2 ('\t' :: acc)
        else if e = 'r' then parseStrAux rest2 ('\r' :: acc)
        else if e = 'b' then parseStrAux rest2 (Char.ofNat 8 :: acc)
        else if e = 'f' then parseStrAux rest2 (Char.ofNat 12 :: acc)
        else if e = 'u' then
          match rest2 with
          | h1 :: h2 :: h3 :: h4 :: rest3 =>
            match hexVal h1, hexVal h2, hexVal h3, hexVal h4 with
            | some a, some b, some c2, some d =>
              parseStrAux rest3 (Char.ofNat (((a * 16 + b) * 16 + c2) * 16 + d) :: acc)
            | _, _, _, _ => .error "Invalid hex escape"
          | _ => .error "Invalid hex escape"
        else .error "Invalid escape"
    else parseStrAux rest (c :: acc)

/-- Longest digit run at the head of the input, and the rest. -/
def takeDigits : List Char → List Char × List Char
  | [] => ([], [])
  | c :: rest =>
    if c.isDigit then
      let (ds, r) := takeDigits rest
      (c :: ds, r)
    else ([], c :: rest)

/-- Numeric value of a digit run. -/
def digitsVal (l : List Char) : Nat :=
  l.foldl (fun a c => 10 * a + (c.toNat - 48)) 0

/-- Optional exponent part of a JSON number. -/
def numExp (d : Dec) (cs : List Char) : Dec × List Char :=
  match cs with
  | c :: rest =>
    if c = 'e' ∨ c = 'E' then
      let (esign, rest1) : Bool × List Char :=
        match rest with
        | d2 :: r2 =>
          if d2 = '-' then (true, r2) else if d2 = '+' then (false, r2) else (false, rest)
        | [] => (false, [])
      match takeDigits rest1 with
      | ([], _) => (d, cs)
      | (ds, r) =>
        let e := digitsVal ds
        (if esign then { d with exp10 := d.exp10 + e }
         else { d with mant := d.mant * (10 : ℤ) ^ e }, r)
    else (d, cs)
  | [] => (d, [])

/-- Optional fraction part of a JSON number, then the exponent. -/
def numFrac (neg : Bool) (ip : Nat) (cs : List Char) : Dec × List Char :=
  let (d, cs2) : Dec × List Char :=
    match cs with
    | c :: rest =>
      if c = '.' then
        match takeDigits rest with
        | ([], _) => (⟨(ip : ℤ), 0⟩, cs)
        | (ds, r) => (⟨((ip * 10 ^ ds.length + digitsVal ds : ℕ) : ℤ), ds.length⟩, r)
      else (⟨(ip : ℤ), 0⟩, cs)
    | [] => (⟨(ip : ℤ), 0⟩, [])
  numExp (if neg then { d with mant := -d.mant } else d) cs2

/-- JSON number grammar `-?(0|[1-9][0-9]*)(.[0-9]+)?([eE][-+]?[0-9]+)?`,
as matched by the stdlib scanner. -/
def parseNum (cs : List Char) : Except String (Dec × List Char) :=
  let (neg, cs1) : Bool × List Char :=
    match cs with
    | c :: rest => if c = '-' then (true, rest) else (false, cs)
    | [] => (false, [])
  match cs1 with
  | [] => .error "Expecting value"
  | c0 :: rest0 =>
    if c0 = '0' then .ok (numFrac neg 0 rest0)
    else if c0.isDigit then
      let (ds, r) := takeDigits cs1
      .ok (numFrac neg (digitsVal ds) r)
    else .error "Expecting value"

/-- Array elements after the first has been found non-empty; `pv` parses one
value; the fuel bounds the number of elements. -/
def parseElemsAux (pv : List Char → Except String (Json × List Char)) :
    Nat → List Char → List Json → Except String (Json × List Char)
  | 0, _, _ => .error "json model fuel exhausted"
  | fuel + 1, cs, acc =>
    match pv cs with
    | .error e => .error e
    | .ok (v, r) =>
      match skipWs r with
      | ',' :: r2 => parseElemsAux pv fuel r2 (v :: acc)
      | c :: r2 =>
        if c = ']' then .ok (Json.arr (v :: acc).reverse, r2)
        else .error "Expecting delimiter"
      | [] => .error "Expecting delimiter"

/-- A JSON array body (after the opening bracket). -/
def parseElems (pv : List Char → Except String (Json × List Char))
    (fuel : Nat) (cs : List Char) : Except String (Json × List Char) :=
  match skipWs cs with
  | c :: r => if c = ']' then .ok (Json.arr [], r) else parseElemsAux pv fuel cs []
  | [] => .error "Expecting value"

/-- Object members after the object has been found non-empty. -/
def parseMembersAux (pv : List Char → Except String (Json × List Char)) :
    Nat → List Char → List (String × Json) → Except String (Json × List Char)
  | 0, _, _ => .error "json model fuel exhausted"
  | fuel + 1, cs, acc =>
    match skipWs cs with
    | '"' :: r =>
      match parseStrAux r [] with
      | .error e => .error e
      | .ok (k, r1) =>
        match skipWs r1 with
        | ':' :: r2 =>
          match pv r2 with
          | .error e => .error e
          | .ok (v, r3) =>
            match skipWs r3 with
            | ',' :: r4 => parseMembersAux pv fuel r4 ((k, v) :: acc)
            | c :: r4 =>
              if c = rbrace then .ok (Json.obj ((k, v) :: acc).reverse, r4)
              else .error "Expecting delimiter"
            | [] => .error "Expecting delimiter"
        | _ => .error "Expecting colon"
    | _ => .error "Expecting property name"

/-- A JSON object body (after the opening brace). -/
def parseMembers (pv : List Char → Except String (Json × List Char))
    (fuel : Nat) (cs : List Char) : Except String (Json × List Char) :=
  match skipWs cs with
  | c :: r => if c = rbrace then .ok (Json.obj [], r) else parseMembersAux pv fuel cs []
  | [] => .error "Expecting property name"

/-- One JSON value.  The fuel dominates the nesting depth; `json_loads`
supplies `length + 1`, which every chain of nested calls stays under because
each level consumes at least one character. -/
def parseVal : Nat → List Char → Except String (Json × List Char)
  | 0, _ => .error "json model fuel exhausted"
  | fuel + 1, cs =>
    match skipWs cs with
    | [] => .error "Expecting value"
    | c :: rest =>
      if c = 'n' then
        match rest with
        | 'u' :: 'l' :: 'l' :: r => .ok (Json.null, r)
        | _ => .error "Expecting value"
      else if c = 't' then
        match rest with
        | 'r' :: 'u' :: 'e' :: r => .ok (Json.bool true, r)
        | _ => .error "Expecting value"
      else if c = 'f' then
        match rest with
        | 'a' :: 'l' :: 's' :: 'e' :: r => .ok (Json.bool false, r)
        | _ => .error "Expecting value"
      else if c = 'N' then
        match rest with
        | 'a' :: 'N' :: r => .ok (Json.nan, r)
        | _ => .error "Expecting value"
      else if c = 'I' then
        match rest with
        | 'n' :: 'f' :: 'i' :: 'n' :: 'i' :: 't' :: 'y' :: r => .ok (Json.inf false, r)
        | _ => .error "Expecting value"
      else if c = '"' then
        match parseStrAux rest [] with
        | .error e => .error e
        | .ok (s, r) => .ok (Json.str s, r)
      else if c = '[' then parseElems (parseVal fuel) fuel rest
      else if c = lbrace then parseMembers (parseVal fuel) fuel rest
      else if c = '-' then
        match rest with
        | 'I' :: 'n' :: 'f' :: 'i' :: 'n' :: 'i' :: 't' :: 'y' :: r => .ok (Json.inf true, r)
        | _ =>
          match parseNum (c :: rest) with
          | .error e => .error e
          | .ok (q, r) => .ok (Json.num q, r)
      else
        match parseNum (c :: rest) with
        | .error e => .error e
        | .ok (q, r) => .ok (Json.num q, r)

/-- Model of `json.loads`: one value, then only whitespace may remain. -/
def json_loads (s : String) : Except String Json :=
  match parseVal (s.length + 1) s.toList with
  | .error e => .error e
  | .ok (v, rest) =>
    match skipWs rest with
    | [] => .ok v
    | _ => .error "Extra data"

/-- Did decoding succeed? -/
def isOkE {ε α : Type} : Except ε α → Bool
  | .ok _ => true
  | .error _ => false

/-! ## `models.py` — `ReceiptData` -/

/-- After an opening brace: collect non-brace characters until a closing
brace (a match of `\x7b[^\x7b\x7d]*\x7d`); a second opening brace restarts
the candidate, exactly as `re.search` restarts at the next possible start. -/
def braceClose : List Char → List Char → Option (List Char)
  | [], _ => none
  | c :: rest, acc =>
    if c = rbrace then some (lbrace :: acc.reverse ++ [rbrace])
    else if c = lbrace then braceClose rest []
    else braceClose rest (c :: acc)

/-- Model of `re.search(r"\x7b[^\x7b\x7d]*\x7d", s, re.DOTALL)`: the leftmost
substring consisting of an opening brace, non-brace characters, and a
closing brace. -/
def reSearchBrace : List Char → Option (List Char)
  | [] => none
  | c :: rest => if c = lbrace then braceClose rest [] else reSearchBrace rest

/-- `models.py` lines 27-30: the text handed to `json.loads` — the regex
match when there is one, otherwise the whole response. -/
def selectText (s : String) : String :=
  match reSearchBrace s.toList with
  | some m => String.mk m
  | none => s

/-- The dataclass `ReceiptData` with its annotated field types and the
declared defaults. -/
structure ReceiptData where
  date : Option String := none
  provider : Option String := none
  patient : Option String := none
  amount : Option Dec := none
  currency : String := "USD"
  is_medical_receipt : Bool := true
deriving DecidableEq

/-- The declared dataclass fields (`cls.__dataclass_fields__`). -/
def validFields : List String := ["date", "provider", "patient", "amount",
  "currency", "is_medical_receipt"]

/-- Python `dict` lookup for the decoded object: the last occurrence of a
key wins, as in `json.loads`. -/
def fieldLookup (kvs : List (String × Json)) (k : String) : Option Json :=
  kvs.foldl (fun acc kv => if kv.1 = k then some kv.2 else acc) none

/-- `models.py` line 45, the character class `[^\d.]`: keep only digits and
decimal points. -/
def stripNonDigitDot (s : String) : String :=
  String.mk (s.toList.filter (fun c => c.isDigit || c = '.'))

/-- Decimal value of a digit/dot run `digits [ '.' digits ]`. -/
def digitsDotsVal (l : List Char) : Dec :=
  let (ip, rest) := takeDigits l
  match rest with
  | [] => ⟨(digitsVal ip : ℤ), 0⟩
  | _ :: fr => ⟨((digitsVal ip * 10 ^ fr.length + digitsVal fr : ℕ) : ℤ), fr.length⟩

/-- Model of `float(residue)` for the residues `stripNonDigitDot` can
produce (digits and dots only): defined iff there is at least one digit and
at most one dot. -/
def pyFloat (s : String) : Option Dec :=
  if s.toList.all (fun c => c.isDigit || c = '.') && s.toList.any (fun c => c.isDigit) &&
      decide (s.toList.count '.' ≤ 1) then
    some (digitsDotsVal s.toList)
  else none

/-- `models.py` lines 43-47: a string-typed `amount` is stripped to digits
and dots and parsed; a parse failure yields `None`, not an error. -/
def amountFromStr (s : String) : Option Dec := pyFloat (stripNonDigitDot s)

/-- Python truthiness of a decoded JSON value (`float("nan")` and the
infinities are truthy). -/
def jsonTruthy : Json → Bool
  | .null => false
  | .bool b => b
  | .num d => d.mant != 0
  | .nan => true
  | .inf _ => true
  | .str s => !s.isEmpty
  | .arr l => !l.isEmpty
  | .obj l => !l.isEmpty

/-- A decoded field value at annotation `str | None`.  (CPython would store
a value of any other JSON type unchecked; no claim exercises that, and it is
mapped to the default `None`.) -/
def asOptStr : Option Json → Option String
  | some (.str s) => some s
  | _ => none

/-- `ReceiptData.from_json` (`models.py` lines 22-49).  The only exception
that can escape is the `AttributeError` of `data.items()` when the decoded
top-level value is not an object (a number, a non-finite constant, a string,
an array, …); `json.JSONDecodeError` is caught and maps to the
`is_medical_receipt=False` sentinel.  A non-finite `amount` (which CPython
would store unchecked and no claim exercises) falls to the field default
like the other non-conforming field values. -/
def from_json (json_str : String) : Except String ReceiptData :=
  let selected := selectText json_str
  match json_loads selected with
  | .error _ => .ok { is_medical_receipt := false }
  | .ok (Json.obj kvs) =>
    let filtered := kvs.filter (fun kv => validFields.contains kv.1)
    .ok {
      date := asOptStr (fieldLookup filtered "date")
      provider := asOptStr (fieldLookup filtered "provider")
      patient := asOptStr (fieldLookup filtered "patient")
      amount :=
        match fieldLookup filtered "amount" with
        | some (.str s) => amountFromStr s
        | some (.num d) => some d
        | _ => none
      currency :=
        match fieldLookup filtered "currency" with
        | some (.str s) => s
        | _ => "USD"
      is_medical_receipt :=
        match fieldLookup filtered "is_medical_receipt" with
        | some v => jsonTruthy v
        | none => true }
  | .ok _ => .error "AttributeError: .items on non-dict"

/-! ## `renamer.py` — `FileRenamer` -/

/-- Decimal digit character. -/
def digitChar : Nat → Char
  | 0 => '0'
  | 1 => '1'
  | 2 => '2'
  | 3 => '3'
  | 4 => '4'
  | 5 => '5'
  | 6 => '6'
  | 7 => '7'
  | 8 => '8'
  | _ => '9'

/-- Digits of `n`, most significant first; the fuel dominates the digit
count (`natRepr` passes `n + 1`). -/
def natReprAux : Nat → Nat → List Char
  | 0, _ => []
  | fuel + 1, n =>
    if n < 10 then [digitChar n] else natReprAux fuel (n / 10) ++ [digitChar (n % 10)]

/-- Python `str` of a non-negative integer. -/
def natRepr (n : Nat) : String := String.mk (natReprAux (n + 1) n)

/-- Python `str` of an integer. -/
def intRepr (n : ℤ) : String :=
  if n < 0 then "-" ++ natRepr n.natAbs else natRepr n.natAbs

/-- Two-digit zero-padded rendering of `k < 100`. -/
def pad2 (k : Nat) : String := if k < 10 then "0" ++ natRepr k else natRepr k

/-- The value of a decimal scaled to hundredths and rounded to an integer
(`round(value * 100)`). -/
def fixedScale (d : Dec) : ℤ :=
  if d.exp10 ≤ 2 then d.mant * (10 : ℤ) ^ (2 - d.exp10)
  else Int.fdiv (2 * d.mant + (10 : ℤ) ^ (d.exp10 - 2)) (2 * (10 : ℤ) ^ (d.exp10 - 2))

/-- Python `f"{x:.2f}"` on an exact decimal: the value rounded to two
fractional digits.  (CPython rounds the underlying binary double half-even;
the models agree on every value whose third fractional digit is not a tie,
and no claim exercises a tie.) -/
def formatFixed2 (d : Dec) : String :=
  (if fixedScale d < 0 then "-" else "") ++ natRepr ((fixedScale d).natAbs / 100) ++ "." ++
    pad2 ((fixedScale d).natAbs % 100)

/-- `FileRenamer.format_amount` (`renamer.py` lines 39-48): `UNKNOWN` for a
missing amount, `{currency}{int}` for a whole value, else
`{currency}{value:.2f}`. -/
def format_amount (amount : Option Dec) (currency : String := "USD") : String :=
  match amount with
  | none => "UNKNOWN"
  | some d =>
    if d.mant % (10 : ℤ) ^ d.exp10 = 0 then currency ++ intRepr (d.mant / (10 : ℤ) ^ d.exp10)
    else currency ++ formatFixed2 d

/-- The regex class `\w` over ASCII: alphanumeric or underscore. -/
def isWordChar (c : Char) : Bool := c.isAlphanum || c = '_'

/-- Longest run of non-whitespace characters at the head, and the rest. -/
def takeWord : List Char → List Char × List Char
  | [] => ([], [])
  | c :: rest =>
    if c.isWhitespace then ([], c :: rest)
    else (c :: (takeWord rest).1, (takeWord rest).2)

/-- Python `str.split()` with no separator: split on whitespace runs,
dropping empty pieces.  The fuel dominates the word count (`pySplitWs`
passes the length). -/
def pySplitWsAux : Nat → List Char → List (List Char)
  | 0, _ => []
  | _ + 1, [] => []
  | fuel + 1, c :: rest =>
    if c.isWhitespace then pySplitWsAux fuel rest
    else (c :: (takeWord rest).1) :: pySplitWsAux fuel (takeWord rest).2

/-- Python `str.split()` with no separator. -/
def pySplitWs (l : List Char) : List (List Char) := pySplitWsAux l.length l

/-- Python `str.capitalize()` over ASCII: first character upper-cased, the
rest lower-cased. -/
def pyCapitalize : List Char → List Char
  | [] => []
  | c :: rest => Char.toUpper c :: rest.map Char.toLower

/-- The character work of `sanitize`: strip characters outside `\w` and
whitespace, title-case and join the words, truncate to `max_length`. -/
def sanitizeChars (t : List Char) (max_length : Nat) : List Char :=
  (((pySplitWs (t.filter (fun c => isWordChar c || c.isWhitespace))).map
    pyCapitalize).flatten).take max_length

/-- `FileRenamer.sanitize` (`renamer.py` lines 17-37): `sanitizeChars`, with
`UNKNOWN` for falsy input or an emptied result. -/
def sanitize (text : Option String) (max_length : Nat := 30) : String :=
  match text with
  | none => "UNKNOWN"
  | some t =>
    if t.isEmpty then "UNKNOWN"
    else if (sanitizeChars t.toList max_length).isEmpty then "UNKNOWN"
    else String.mk (sanitizeChars t.toList max_length)

/-- `re.match(r"\d{4}-\d{2}-\d{2}", s)`: anchored at the start, the rest of
the string unconstrained. -/
def dateShapePrefix (s : String) : Bool :=
  match s.toList with
  | a :: b :: c :: d :: h1 :: e :: f :: h2 :: g :: i :: _ =>
    a.isDigit && b.isDigit && c.isDigit && d.isDigit && (h1 == '-') &&
      e.isDigit && f.isDigit && (h2 == '-') && g.isDigit && i.isDigit
  | _ => false

/-- The date segment (`renamer.py` lines 62-66): the truthy date verbatim
when the shape matches at its start, otherwise `REVIEW`. -/
def datePart (date : Option String) : String :=
  match date with
  | some d => if !d.isEmpty && dateShapePrefix d then d else "REVIEW"
  | none => "REVIEW"

/-- `FileRenamer.generate_new_name` (`renamer.py` lines 50-76):
`{date}_{provider}_{patient}_{amount}{ext}`, the date used verbatim when the
shape matches at the start, otherwise `REVIEW`. -/
def generate_new_name (data : ReceiptData) (original_ext : String) : String :=
  datePart data.date ++ "_" ++ sanitize data.provider ++ "_" ++ sanitize data.patient ++ "_" ++
    format_amount data.amount data.currency ++ original_ext

/-- Index of the last `'.'` in a name, if any. -/
def lastDotIdx (l : List Char) : Option Nat :=
  match l.reverse.findIdx? (fun c => c = '.') with
  | some j => some (l.length - 1 - j)
  | none => none

/-- `pathlib.PurePath.stem`: the name up to the last dot, provided that dot
is neither the first nor the last character. -/
def pathStem (name : String) : String :=
  match lastDotIdx name.toList with
  | some i =>
    if 0 < i ∧ i < name.toList.length - 1 then String.mk (name.toList.take i) else name
  | none => name

/-- `pathlib.PurePath.suffix`: the extension from the last dot, under the
same proviso as `pathStem`. -/
def pathSuffix (name : String) : String :=
  match lastDotIdx name.toList with
  | some i =>
    if 0 < i ∧ i < name.toList.length - 1 then String.mk (name.toList.drop i) else ""
  | none => ""

/-- `FileRenamer.MAX_CONFLICT_ATTEMPTS`. -/
def MAX_CONFLICT_ATTEMPTS : Nat := 1000

/-- The `n`-th probe name `{stem}_{n}{ext}`. -/
def conflictCand (stem ext : String) (n : Nat) : String :=
  stem ++ "_" ++ natRepr n ++ ext

/-- The probe loop of `resolve_conflict` (`renamer.py` lines 97-102):
`counter` is the next suffix to try, the fuel the number of attempts left. -/
def conflictLoop (dir : List String) (stem ext : String) :
    Nat → Nat → Except String String
  | 0, _ => .error "Could not resolve conflict after 1000 attempts"
  | fuel + 1, counter =>
    if conflictCand stem ext counter ∈ dir then conflictLoop dir stem ext fuel (counter + 1)
    else .ok (conflictCand stem ext counter)

/-- `FileRenamer.resolve_conflict` (`renamer.py` lines 78-102), with the
directory's current entry names as `dir`. -/
def resolve_conflict (dir : List String) (filename : String) : Except String String :=
  if filename ∈ dir then
    conflictLoop dir (pathStem filename) (pathSuffix filename) MAX_CONFLICT_ATTEMPTS 1
  else .ok filename

/-- Split on `/`; `acc` holds the current segment's characters reversed. -/
def splitSlashAux : List Char → List Char → List String
  | [], acc => [String.mk acc.reverse]
  | c :: rest, acc =>
    if c = '/' then String.mk acc.reverse :: splitSlashAux rest []
    else splitSlashAux rest (c :: acc)

/-- Split a candidate name on `/` into path segments (empty segments
collapse, as in `pathlib`). -/
def splitSlash (s : String) : List String :=
  (splitSlashAux s.toList []).filter (fun seg => !seg.isEmpty)

/-- Lexical `Path.resolve` on absolute segment lists: `.` and empty segments
vanish, `..` pops (staying at the root when empty); symlinks are out of
scope. -/
def resolveSegs (segs : List String) : List String :=
  segs.foldl
    (fun acc seg =>
      if seg = "." ∨ seg = "" then acc
      else if seg = ".." then acc.dropLast
      else acc ++ [seg])
    []

/-- `FileRenamer.execute_rename` (`renamer.py` lines 104-121): the
destination is `new_name` under the source's parent; raise `ValueError` when
the resolved destination's parent differs from the resolved source parent,
else rename and return the new path. -/
def execute_rename (source : List String) (new_name : String) :
    Except String (List String) :=
  if (resolveSegs (source.dropLast ++ splitSlash new_name)).dropLast ≠
      resolveSegs source.dropLast then
    .error ("Path traversal detected: " ++ new_name)
  else .ok (source.dropLast ++ splitSlash new_name)

/-! ## `processor.py` — `FileProcessor.discover_files`

The recursive listing of the root directory is taken as a list of relative
path strings; `rglob` with a `*`-prefixed single-component pattern keeps the
files whose final component ends with the pattern's suffix (matching is
case-sensitive, as on a POSIX filesystem). -/

/-- `FileProcessor.SUPPORTED_EXTENSIONS`. -/
def SUPPORTED_EXTENSIONS : List String :=
  [".pdf", ".jpg", ".jpeg", ".png", ".bmp", ".tiff", ".tif"]

/-- The final path component of a listed file. -/
def baseName (p : String) : String :=
  String.mk ((p.toList.reverse.takeWhile (fun c => c ≠ '/')).reverse)

/-- Does the final component end with `ext`?  (`rglob(f"*{ext}")`.) -/
def matchesGlob (p ext : String) : Bool :=
  ext.toList.isSuffixOf (baseName p).toList

/-- Python `str.upper()` over ASCII. -/
def strUpper (s : String) : String := String.mk (s.toList.map Char.toUpper)

/-- Python `str.lower()` over ASCII. -/
def strLower (s : String) : String := String.mk (s.toList.map Char.toLower)

/-- Lexicographic (code-point) string order, as Python compares strings. -/
def charsLe : List Char → List Char → Bool
  | [], _ => true
  | _ :: _, [] => false
  | a :: as, b :: bs =>
    if a.toNat < b.toNat then true
    else if b.toNat < a.toNat then false
    else charsLe as bs

/-- Non-strict string comparison used by `sorted(...)`. -/
def strLe (a b : String) : Bool := charsLe a.toList b.toList

/-- Insert into a `strLe`-sorted list of strings. -/
def insertSorted (a : String) : List String → List String
  | [] => [a]
  | b :: rest => if strLe a b then a :: b :: rest else b :: insertSorted a rest

/-- `sorted(...)` on strings. -/
def sortStrings (l : List String) : List String := l.foldr insertSorted []

/-- The concatenated `rglob` hits (`files` in `discover_files`): for each
supported extension, the files matching the extension and its upper-case
form. -/
def discoverRaw (listing : List String) : List String :=
  SUPPORTED_EXTENSIONS.foldr
    (fun ext acc =>
      listing.filter (fun p => matchesGlob p ext) ++
        listing.filter (fun p => matchesGlob p (strUpper ext)) ++ acc)
    []

/-- `FileProcessor.discover_files` (`processor.py` lines 21-36): the `rglob`
hits, then `sorted(set(files))`. -/
def discover_files (listing : List String) : List String :=
  sortStrings (discoverRaw listing).dedup

/-! ## `cli.py` — `ProcessResult` and `process_single_file`

The per-file orchestration is modelled as a pure function of its inputs:
the image bytes (already obtained or `none`), the extraction call as an
oracle `β → Except String ReceiptData` producing a record per the data
model, the parent directory's entry listing, the operator's reply to the
confirmation prompt, and the shared completion counter's current value.
It returns the updated counter and the list of renames performed; a Python
exception escaping the function is `Except.error`.  Printing is not
modelled; `verbose` and `total` only affect output. -/

/-- The dataclass `ProcessResult` with its declared defaults. -/
structure ProcessResult where
  file_path : List String
  data : Option ReceiptData := none
  new_name : Option String := none
  error : Option String := none
  skipped_reason : Option String := none
deriving DecidableEq

/-- Python `response.strip().lower()` over ASCII. -/
def pyStripLower (s : String) : String :=
  String.mk
    ((((s.toList.dropWhile Char.isWhitespace).reverse.dropWhile
      Char.isWhitespace).reverse).map Char.toLower)

/-- `process_single_file` (`cli.py` lines 30-109).  The lock is not
modelled (thread interleaving is outside this embedding); the function body
is its single-thread effect. -/
def process_single_file {β : Type} (file_path : List String) (image_bytes : Option β)
    (extract : β → Except String ReceiptData) (dir_listing : List String)
    (dry_run verbose confirm : Bool) (response : String) (counter total : Nat) :
    Except String (ProcessResult × Nat × List (List String × String)) :=
  let result : ProcessResult := { file_path := file_path }
  match image_bytes with
  | none =>
    .ok ({ result with error := some "failed to read file" }, counter + 1, [])
  | some img =>
    match extract img with
    | .error e => .error e
    | .ok data =>
      if !data.is_medical_receipt then
        let r := { result with data := some data, skipped_reason := some "not a medical receipt" }
        .ok (r, counter + 1, [])
      else
        let candidate := generate_new_name data (pathSuffix (file_path.getLastD ""))
        match resolve_conflict dir_listing candidate with
        | .error e => .error e
        | .ok new_name =>
          if confirm && (pyStripLower response == "n") then
            let r := { result with data := some data, skipped_reason := some "skipped by user" }
            .ok (r, counter + 1, [])
          else if !dry_run then
            match execute_rename file_path new_name with
            | .error e => .error e
            | .ok _ =>
              let r := { result with data := some data, new_name := some new_name }
              .ok (r, counter + 1, [(file_path, new_name)])
          else
            let r := { result with data := some data, new_name := some new_name }
            .ok (r, counter + 1, [])

/-! ## Supporting lemmas -/

theorem toNat_ofNatAux {n : Nat} (h : n.isValidChar) : (Char.ofNatAux n h).toNat = n := by
  simp [Char.ofNatAux, Char.toNat, UInt32.toNat]

theorem toNat_ofNat_valid {n : Nat} (h : n.isValidChar) : (Char.ofNat n).toNat = n := by
  rw [Char.ofNat, dif_pos h]
  exact toNat_ofNatAux h

theorem toUpper_ne_slash {c : Char} (hc : c ≠ '/') : Char.toUpper c ≠ '/' := by
  intro h
  unfold Char.toUpper at h
  simp only [] at h
  by_cases hcond : c.toNat ≥ 97 ∧ c.toNat ≤ 122
  · rw [if_pos hcond] at h
    have hval : (Char.ofNat (c.toNat - 32)).toNat = c.toNat - 32 :=
      toNat_ofNat_valid (Or.inl (by omega))
    rw [h] at hval
    have h47 : ('/' : Char).toNat = 47 := by decide
    omega
  · rw [if_neg hcond] at h
    exact hc h

theorem toLower_ne_slash {c : Char} (hc : c ≠ '/') : Char.toLower c ≠ '/' := by
  intro h
  unfold Char.toLower at h
  simp only [] at h
  by_cases hcond : c.toNat ≥ 65 ∧ c.toNat ≤ 90
  · rw [if_pos hcond] at h
    have hval : (Char.ofNat (c.toNat + 32)).toNat = c.toNat + 32 := by
      apply toNat_ofNat_valid
      left
      omega
    rw [h] at hval
    have h47 : ('/' : Char).toNat = 47 := by decide
    omega
  · rw [if_neg hcond] at h
    exact hc h

theorem toList_append (s t : String) : (s ++ t).toList = s.toList ++ t.toList := by
  simp [String.toList, String.data_append]

/-! ## Claim theorems -/

/-- C10: on the input
`\x7b"provider": "CVS", "is_medical_receipt": true, "meta": \x7b\x7d\x7d`
— a single valid JSON object one of whose values is itself an object —
`from_json` hands `json.loads` only the first innermost brace-delimited
substring `\x7b\x7d`, so every top-level field is lost and the all-defaults
record (`is_medical_receipt = true`, all other fields absent) is returned. -/
theorem from_json_first_innermost_brace :
    selectText "\x7b\"provider\": \"CVS\", \"is_medical_receipt\": true, \"meta\": \x7b\x7d\x7d" =
        "\x7b\x7d" ∧
      from_json "\x7b\"provider\": \"CVS\", \"is_medical_receipt\": true, \"meta\": \x7b\x7d\x7d" =
        .ok { date := none, provider := none, patient := none, amount := none,
              currency := "USD", is_medical_receipt := true } :=
  ⟨rfl, rfl⟩

/-- C2 counterexample: on `"42"` — a raw string from which no JSON object is
recoverable — `from_json` raises (`json.loads` returns the integer `42` and
`data.items()` fails with `AttributeError`) instead of returning the
`is_medical_receipt = false` sentinel, so `from_json` is not total. -/
theorem from_json_not_total_on_bare_number :
    from_json "42" = .error "AttributeError: .items on non-dict" ∧
      from_json "42" ≠ .ok { is_medical_receipt := false } := by
  refine ⟨rfl, fun h => ?_⟩
  rw [show from_json "42" = Except.error "AttributeError: .items on non-dict" from rfl] at h
  exact Except.noConfusion h

/-- C2 amended: whenever JSON decoding of the selected text fails,
`from_json` returns the sentinel record (`is_medical_receipt = false`, every
other field at its default); and it never raises on any input whose decoded
top-level value is a JSON object.  (It does raise when the decode succeeds
with a non-object value, per the counterexample.) -/
theorem from_json_sentinel_on_decode_failure (s : String) :
    (isOkE (json_loads (selectText s)) = false →
      from_json s = .ok { date := none, provider := none, patient := none,
                          amount := none, currency := "USD", is_medical_receipt := false }) ∧
    (∀ kvs, json_loads (selectText s) = .ok (Json.obj kvs) → isOkE (from_json s) = true) := by
  constructor
  · intro hfail
    cases h : json_loads (selectText s) with
    | error e => simp [from_json, h]
    | ok v => rw [h] at hfail; simp [isOkE] at hfail
  · intro kvs h
    simp [from_json, h, isOkE]

/-- C2 witness: the sentinel on a concrete undecodable input. -/
theorem from_json_sentinel_on_decode_failure_witness :
    from_json "not json at all" =
      .ok { date := none, provider := none, patient := none, amount := none,
            currency := "USD", is_medical_receipt := false } :=
  (from_json_sentinel_on_decode_failure "not json at all").1 (by rfl)

/-- C8: for a string-typed `amount` field, `from_json` strips every
character that is not a digit or a dot and parses the residue: an embedded
numeral surrounded by digit-free, dot-free text (currency symbols or words)
is recovered exactly, and a string containing no digit yields an absent
amount rather than an error. -/
theorem amount_string_normalization :
    (∀ pre num post : String,
      (∀ c ∈ pre.toList, c.isDigit = false ∧ c ≠ '.') →
      (∀ c ∈ post.toList, c.isDigit = false ∧ c ≠ '.') →
      (∀ c ∈ num.toList, c.isDigit = true ∨ c = '.') →
      (∃ c ∈ num.toList, c.isDigit = true) →
      num.toList.count '.' ≤ 1 →
      amountFromStr (pre ++ num ++ post) = some (digitsDotsVal num.toList)) ∧
    (∀ s : String, (∀ c ∈ s.toList, c.isDigit = false) → amountFromStr s = none) := by
  constructor
  · intro pre num post hpre hpost hnum hdig hdot
    have h1 : pre.toList.filter (fun c => c.isDigit || c = '.') = [] := by
      rw [List.filter_eq_nil_iff]
      intro c hc
      obtain ⟨hd, hne⟩ := hpre c hc
      simp [hd, hne]
    have h3 : post.toList.filter (fun c => c.isDigit || c = '.') = [] := by
      rw [List.filter_eq_nil_iff]
      intro c hc
      obtain ⟨hd, hne⟩ := hpost c hc
      simp [hd, hne]
    have h2 : num.toList.filter (fun c => c.isDigit || c = '.') = num.toList := by
      rw [List.filter_eq_self]
      intro c hc
      rcases hnum c hc with h | h <;> simp [h]
    have hstrip : stripNonDigitDot (pre ++ num ++ post) = String.mk num.toList := by
      unfold stripNonDigitDot
      rw [toList_append, toList_append, List.filter_append, List.filter_append,
        h1, h2, h3, List.append_nil, List.nil_append]
    have hcond : ((String.mk num.toList).toList.all (fun c => c.isDigit || c = '.') &&
        (String.mk num.toList).toList.any (fun c => c.isDigit) &&
        decide ((String.mk num.toList).toList.count '.' ≤ 1)) = true := by
      have hl : (String.mk num.toList).toList = num.toList := rfl
      rw [hl]
      simp only [Bool.and_eq_true]
      refine ⟨⟨?_, ?_⟩, ?_⟩
      · rw [List.all_eq_true]
        intro c hc
        rcases hnum c hc with h | h <;> simp [h]
      · rw [List.any_eq_true]
        obtain ⟨c, hc, hd⟩ := hdig
        exact ⟨c, hc, hd⟩
      · exact decide_eq_true hdot
    show pyFloat (stripNonDigitDot (pre ++ num ++ post)) = some (digitsDotsVal num.toList)
    rw [hstrip]
    unfold pyFloat
    rw [if_pos hcond]
    rfl
  · intro s hs
    have hany : ((s.toList.filter (fun c => c.isDigit || c = '.')).any
        (fun c => c.isDigit)) = false := by
      rw [Bool.eq_false_iff]
      intro hany
      rw [List.any_eq_true] at hany
      obtain ⟨c, hc, hd⟩ := hany
      have hmem := List.mem_of_mem_filter hc
      rw [hs c hmem] at hd
      cases hd
    show pyFloat (stripNonDigitDot s) = none
    unfold pyFloat
    refine if_neg ?_
    intro hcond
    have hl : (stripNonDigitDot s).toList = s.toList.filter (fun c => c.isDigit || c = '.') := rfl
    rw [hl] at hcond
    simp only [Bool.and_eq_true] at hcond
    rw [hany] at hcond
    exact Bool.false_ne_true hcond.1.2

/-- C8 witness: the spec's own examples. -/
theorem amount_string_normalization_witness :
    amountFromStr "$45.99" = some ⟨4599, 2⟩ ∧
      amountFromStr "USD 100.50" = some ⟨10050, 2⟩ ∧
      amountFromStr "not a number" = none := by
  refine ⟨?_, ?_, ?_⟩
  · have h := amount_string_normalization.1 "$" "45.99" ""
      (by decide) (by decide) (by decide) (by decide) (by decide)
    exact h
  · have h := amount_string_normalization.1 "USD " "100.50" ""
      (by decide) (by decide) (by decide) (by decide) (by decide)
    exact h
  · exact amount_string_normalization.2 "not a number" (by decide)

/-- C4: `execute_rename` performs the rename only when the resolved
destination stays directly in the source's resolved parent — whenever the
resolved destination's parent differs from the resolved source parent it
raises the path-traversal `ValueError` — and in particular the traversal
name `../malicious.pdf` of the repository's own test is rejected. -/
theorem execute_rename_traversal_guard :
    (∀ (source : List String) (new_name : String) (p : List String),
      execute_rename source new_name = .ok p →
      p = source.dropLast ++ splitSlash new_name ∧
        (resolveSegs p).dropLast = resolveSegs source.dropLast) ∧
    (∀ (source : List String) (new_name : String),
      (resolveSegs (source.dropLast ++ splitSlash new_name)).dropLast ≠
          resolveSegs source.dropLast →
      execute_rename source new_name = .error ("Path traversal detected: " ++ new_name)) ∧
    execute_rename ["tmp", "test.pdf"] "../malicious.pdf" =
      .error "Path traversal detected: ../malicious.pdf" := by
  refine ⟨?_, ?_, by rfl⟩
  · intro source new_name p h
    unfold execute_rename at h
    by_cases hc : (resolveSegs (source.dropLast ++ splitSlash new_name)).dropLast =
        resolveSegs source.dropLast
    · rw [if_neg (not_not_intro hc)] at h
      injection h with h2
      exact ⟨h2.symm, h2 ▸ hc⟩
    · rw [if_pos hc] at h
      exact Except.noConfusion h
  · intro source new_name hne
    unfold execute_rename
    rw [if_pos hne]

/-- C4 witness: an accepted in-parent rename and a rejected `..` name. -/
theorem execute_rename_traversal_guard_witness :
    (resolveSegs ["d", "b.pdf"]).dropLast = resolveSegs (["d", "a.pdf"].dropLast) ∧
      execute_rename ["d", "a.pdf"] "../evil.pdf" =
        .error ("Path traversal detected: " ++ "../evil.pdf") :=
  ⟨(execute_rename_traversal_guard.1 ["d", "a.pdf"] "b.pdf" ["d", "b.pdf"] (by rfl)).2,
    execute_rename_traversal_guard.2.1 ["d", "a.pdf"] "../evil.pdf" (by decide)⟩

/-- The probe loop returns the first free candidate when one exists within
the fuel. -/
theorem conflictLoop_ok_of_free (dir : List String) (stem ext : String) :
    ∀ (fuel start : Nat),
      (∃ k, k < fuel ∧ conflictCand stem ext (start + k) ∉ dir) →
      ∃ k, k < fuel ∧
        conflictLoop dir stem ext fuel start = .ok (conflictCand stem ext (start + k)) ∧
        conflictCand stem ext (start + k) ∉ dir ∧
        ∀ j, j < k → conflictCand stem ext (start + j) ∈ dir := by
  intro fuel
  induction fuel with
  | zero => intro start h; obtain ⟨k, hk, _⟩ := h; omega
  | succ fuel ih =>
    intro start h
    by_cases h0 : conflictCand stem ext start ∈ dir
    · obtain ⟨k, hk, hfree⟩ := h
      match k, hk with
      | 0, _ =>
        rw [Nat.add_zero] at hfree
        exact absurd h0 hfree
      | k' + 1, hk =>
        have hfree' : conflictCand stem ext (start + 1 + k') ∉ dir := by
          have : start + 1 + k' = start + (k' + 1) := by omega
          rw [this]
          exact hfree
        obtain ⟨k2, hk2, heq, hfree2, hall⟩ := ih (start + 1) ⟨k', by omega, hfree'⟩
        refine ⟨k2 + 1, by omega, ?_, ?_, ?_⟩
        · show conflictLoop dir stem ext (fuel + 1) start = _
          unfold conflictLoop
          rw [if_pos h0]
          have : start + 1 + k2 = start + (k2 + 1) := by omega
          rw [this] at heq
          exact heq
        · have : start + 1 + k2 = start + (k2 + 1) := by omega
          rw [this] at hfree2
          exact hfree2
        · intro j hj
          match j with
          | 0 => rw [Nat.add_zero]; exact h0
          | j' + 1 =>
            have : start + (j' + 1) = start + 1 + j' := by omega
            rw [this]
            exact hall j' (by omega)
    · refine ⟨0, by omega, ?_, ?_, ?_⟩
      · show conflictLoop dir stem ext (fuel + 1) start = _
        unfold conflictLoop
        rw [if_neg h0, Nat.add_zero]
      · rw [Nat.add_zero]; exact h0
      · intro j hj; omega

/-- The probe loop raises once every candidate within the fuel is taken. -/
theorem conflictLoop_error_of_all (dir : List String) (stem ext : String) :
    ∀ (fuel start : Nat),
      (∀ k, k < fuel → conflictCand stem ext (start + k) ∈ dir) →
      conflictLoop dir stem ext fuel start =
        .error "Could not resolve conflict after 1000 attempts" := by
  intro fuel
  induction fuel with
  | zero => intro start _; rfl
  | succ fuel ih =>
    intro start hall
    have h0 : conflictCand stem ext start ∈ dir := by
      have := hall 0 (by omega)
      rwa [Nat.add_zero] at this
    show conflictLoop dir stem ext (fuel + 1) start = _
    unfold conflictLoop
    rw [if_pos h0]
    apply ih
    intro k hk
    have : start + 1 + k = start + (k + 1) := by omega
    rw [this]
    exact hall (k + 1) (by omega)

/-- C6: `resolve_conflict` returns the candidate unchanged when no entry
with that name exists; otherwise it returns the first `{stem}_{n}{ext}`
(`n = 1, 2, …`) absent from the directory — in particular a name that
collides with no existing entry — provided fewer than 1000 of those suffixed
names are taken; and when all 1000 probes collide it raises instead of
returning. -/
theorem resolve_conflict_spec (dir : List String) (filename : String) :
    (filename ∉ dir → resolve_conflict dir filename = .ok filename) ∧
    (filename ∈ dir →
      ((Finset.Icc 1 MAX_CONFLICT_ATTEMPTS).filter
          (fun n => conflictCand (pathStem filename) (pathSuffix filename) n ∈ dir)).card <
        MAX_CONFLICT_ATTEMPTS →
      ∃ n, 1 ≤ n ∧ n ≤ MAX_CONFLICT_ATTEMPTS ∧
        resolve_conflict dir filename =
          .ok (conflictCand (pathStem filename) (pathSuffix filename) n) ∧
        conflictCand (pathStem filename) (pathSuffix filename) n ∉ dir ∧
        ∀ m, 1 ≤ m → m < n →
          conflictCand (pathStem filename) (pathSuffix filename) m ∈ dir) ∧
    (filename ∈ dir →
      (∀ n, 1 ≤ n → n ≤ MAX_CONFLICT_ATTEMPTS →
        conflictCand (pathStem filename) (pathSuffix filename) n ∈ dir) →
      resolve_conflict dir filename =
        .error "Could not resolve conflict after 1000 attempts") := by
  refine ⟨?_, ?_, ?_⟩
  · intro hnot
    unfold resolve_conflict
    rw [if_neg hnot]
  · intro hmem hcard
    have hex : ∃ n ∈ Finset.Icc 1 MAX_CONFLICT_ATTEMPTS,
        conflictCand (pathStem filename) (pathSuffix filename) n ∉ dir := by
      by_contra hno
      push_neg at hno
      have : (Finset.Icc 1 MAX_CONFLICT_ATTEMPTS).filter
          (fun n => conflictCand (pathStem filename) (pathSuffix filename) n ∈ dir) =
          Finset.Icc 1 MAX_CONFLICT_ATTEMPTS := Finset.filter_true_of_mem hno
      rw [this, Nat.card_Icc] at hcard
      omega
    obtain ⟨n0, hn0, hfree0⟩ := hex
    rw [Finset.mem_Icc] at hn0
    have hloop := conflictLoop_ok_of_free dir (pathStem filename) (pathSuffix filename)
      MAX_CONFLICT_ATTEMPTS 1 ⟨n0 - 1, by omega, by
        have : 1 + (n0 - 1) = n0 := by omega
        rw [this]
        exact hfree0⟩
    obtain ⟨k, hk, heq, hfree, hall⟩ := hloop
    refine ⟨1 + k, by omega, by omega, ?_, hfree, ?_⟩
    · unfold resolve_conflict
      rw [if_pos hmem]
      exact heq
    · intro m hm1 hmk
      have : m = 1 + (m - 1) := by omega
      rw [this]
      exact hall (m - 1) (by omega)
  · intro hmem hall
    unfold resolve_conflict
    rw [if_pos hmem]
    apply conflictLoop_error_of_all
    intro k hk
    exact hall (1 + k) (by omega) (by
      show 1 + k ≤ MAX_CONFLICT_ATTEMPTS
      unfold MAX_CONFLICT_ATTEMPTS
      unfold MAX_CONFLICT_ATTEMPTS at hk
      omega)

set_option maxRecDepth 100000 in
/-- C6 witness: with `test.pdf` and `test_1.pdf` present, the candidate
`test.pdf` resolves to the first free probe. -/
theorem resolve_conflict_spec_witness :
    ∃ n, 1 ≤ n ∧ n ≤ MAX_CONFLICT_ATTEMPTS ∧
      resolve_conflict ["test.pdf", "test_1.pdf"] "test.pdf" =
        .ok (conflictCand (pathStem "test.pdf") (pathSuffix "test.pdf") n) ∧
      conflictCand (pathStem "test.pdf") (pathSuffix "test.pdf") n ∉
        ["test.pdf", "test_1.pdf"] ∧
      ∀ m, 1 ≤ m → m < n →
        conflictCand (pathStem "test.pdf") (pathSuffix "test.pdf") m ∈
          ["test.pdf", "test_1.pdf"] :=
  (resolve_conflict_spec ["test.pdf", "test_1.pdf"] "test.pdf").2.1
    (by decide) (by decide)

theorem takeWord_subsets (l : List Char) :
    (∀ c ∈ (takeWord l).1, c ∈ l) ∧ (∀ c ∈ (takeWord l).2, c ∈ l) := by
  induction l with
  | nil => exact ⟨fun c hc => absurd hc (List.not_mem_nil c), fun c hc => absurd hc (List.not_mem_nil c)⟩
  | cons a rest ih =>
    by_cases hws : a.isWhitespace
    · have heq : takeWord (a :: rest) = ([], a :: rest) := by
        simp [takeWord, hws]
      rw [heq]
      exact ⟨fun c hc => absurd hc (List.not_mem_nil c), fun c hc => hc⟩
    · have heq : takeWord (a :: rest) = (a :: (takeWord rest).1, (takeWord rest).2) := by
        simp [takeWord, hws]
      rw [heq]
      constructor
      · intro c hc
        rcases List.mem_cons.mp hc with h | h
        · exact h ▸ List.mem_cons_self a rest
        · exact List.mem_cons_of_mem a (ih.1 c h)
      · intro c hc
        exact List.mem_cons_of_mem a (ih.2 c hc)

theorem pySplitWsAux_subset :
    ∀ (fuel : Nat) (l w : List Char), w ∈ pySplitWsAux fuel l → ∀ c ∈ w, c ∈ l := by
  intro fuel
  induction fuel with
  | zero => intro l w hw; exact absurd hw (List.not_mem_nil w)
  | succ fuel ih =>
    intro l w hw c hc
    match l with
    | [] => exact absurd hw (List.not_mem_nil w)
    | a :: rest =>
      by_cases hws : a.isWhitespace
      · have heq : pySplitWsAux (fuel + 1) (a :: rest) = pySplitWsAux fuel rest := by
          simp [pySplitWsAux, hws]
        rw [heq] at hw
        exact List.mem_cons_of_mem a (ih rest w hw c hc)
      · have heq : pySplitWsAux (fuel + 1) (a :: rest) =
            (a :: (takeWord rest).1) :: pySplitWsAux fuel (takeWord rest).2 := by
          simp [pySplitWsAux, hws]
        rw [heq] at hw
        rcases List.mem_cons.mp hw with h | h
        · subst h
          rcases List.mem_cons.mp hc with h2 | h2
          · exact h2 ▸ List.mem_cons_self a rest
          · exact List.mem_cons_of_mem a ((takeWord_subsets rest).1 c h2)
        · exact List.mem_cons_of_mem a
            ((takeWord_subsets rest).2 c (ih (takeWord rest).2 w h c hc))

theorem pyCapitalize_chars (w : List Char) (c : Char) (hc : c ∈ pyCapitalize w) :
    ∃ b ∈ w, c = Char.toUpper b ∨ c = Char.toLower b := by
  match w with
  | [] => exact absurd hc (List.not_mem_nil c)
  | b :: rest =>
    rcases List.mem_cons.mp hc with h | h
    · exact ⟨b, List.mem_cons_self b rest, Or.inl h⟩
    · obtain ⟨b2, hb2, heq⟩ := List.mem_map.mp h
      exact ⟨b2, List.mem_cons_of_mem b hb2, Or.inr heq.symm⟩

theorem sanitize_no_slash (text : Option String) (ml : Nat) :
    '/' ∉ (sanitize text ml).toList := by
  match text with
  | none =>
    show '/' ∉ ("UNKNOWN" : String).toList
    decide
  | some t =>
    dsimp only [sanitize]
    by_cases h1 : t.isEmpty
    · rw [if_pos h1]
      decide
    · rw [if_neg h1]
      by_cases h2 : (sanitizeChars t.toList ml).isEmpty
      · rw [if_pos h2]
        decide
      · rw [if_neg h2]
        show '/' ∉ sanitizeChars t.toList ml
        intro hmem
        have hjoin : '/' ∈ (((pySplitWs (t.toList.filter
            (fun c => isWordChar c || c.isWhitespace))).map pyCapitalize).flatten) :=
          List.take_subset ml _ hmem
        obtain ⟨piece, hpiece, hcp⟩ := List.mem_flatten.mp hjoin
        obtain ⟨w, hw, hweq⟩ := List.mem_map.mp hpiece
        obtain ⟨b, hb, hbeq⟩ := pyCapitalize_chars w '/' (hweq ▸ hcp)
        have hbl : b ∈ t.toList.filter (fun c => isWordChar c || c.isWhitespace) :=
          pySplitWsAux_subset _ _ w hw b hb
        have hbp : (isWordChar b || b.isWhitespace) = true := (List.mem_filter.mp hbl).2
        have hbne : b ≠ '/' := by
          intro hbe
          subst hbe
          exact absurd hbp (by decide)
        rcases hbeq with h | h
        · exact toUpper_ne_slash hbne h.symm
        · exact toLower_ne_slash hbne h.symm

theorem digitChar_ne_slash (n : Nat) : digitChar n ≠ '/' := by
  unfold digitChar
  split <;> decide

theorem natReprAux_no_slash : ∀ (fuel n : Nat), '/' ∉ natReprAux fuel n := by
  intro fuel
  induction fuel with
  | zero => intro n h; exact absurd h (List.not_mem_nil _)
  | succ fuel ih =>
    intro n h
    unfold natReprAux at h
    by_cases hlt : n < 10
    · rw [if_pos hlt] at h
      rcases List.mem_singleton.mp h with h2
      exact digitChar_ne_slash n h2.symm
    · rw [if_neg hlt] at h
      rcases List.mem_append.mp h with h2 | h2
      · exact ih (n / 10) h2
      · exact digitChar_ne_slash (n % 10) (List.mem_singleton.mp h2).symm

theorem natRepr_no_slash (n : Nat) : '/' ∉ (natRepr n).toList :=
  natReprAux_no_slash (n + 1) n

theorem intRepr_no_slash (n : ℤ) : '/' ∉ (intRepr n).toList := by
  unfold intRepr
  by_cases hneg : n < 0
  · rw [if_pos hneg, toList_append]
    intro h
    rcases List.mem_append.mp h with h2 | h2
    · exact absurd (List.mem_singleton.mp h2) (by decide)
    · exact natRepr_no_slash n.natAbs h2
  · rw [if_neg hneg]
    exact natRepr_no_slash n.natAbs

theorem pad2_no_slash (k : Nat) : '/' ∉ (pad2 k).toList := by
  unfold pad2
  by_cases hlt : k < 10
  · rw [if_pos hlt, toList_append]
    intro h
    rcases List.mem_append.mp h with h2 | h2
    · exact absurd (List.mem_singleton.mp h2) (by decide)
    · exact natRepr_no_slash k h2
  · rw [if_neg hlt]
    exact natRepr_no_slash k

theorem formatFixed2_no_slash (d : Dec) : '/' ∉ (formatFixed2 d).toList := by
  unfold formatFixed2
  intro h
  rw [toList_append, toList_append, toList_append] at h
  rcases List.mem_append.mp h with h2 | h2
  · rcases List.mem_append.mp h2 with h3 | h3
    · rcases List.mem_append.mp h3 with h4 | h4
      · by_cases hneg : fixedScale d < 0
        · rw [if_pos hneg] at h4
          exact absurd (List.mem_singleton.mp h4) (by decide)
        · rw [if_neg hneg] at h4
          exact absurd h4 (List.not_mem_nil _)
      · exact natRepr_no_slash _ h4
    · exact absurd (List.mem_singleton.mp h3) (by decide)
  · exact pad2_no_slash _ h2

theorem format_amount_no_slash (amount : Option Dec) (currency : String)
    (hcur : '/' ∉ currency.toList) : '/' ∉ (format_amount amount currency).toList := by
  match amount with
  | none =>
    show '/' ∉ ("UNKNOWN" : String).toList
    decide
  | some d =>
    dsimp only [format_amount]
    by_cases hw : d.mant % (10 : ℤ) ^ d.exp10 = 0
    · rw [if_pos hw, toList_append]
      intro h
      rcases List.mem_append.mp h with h2 | h2
      · exact hcur h2
      · exact intRepr_no_slash _ h2
    · rw [if_neg hw, toList_append]
      intro h
      rcases List.mem_append.mp h with h2 | h2
      · exact hcur h2
      · exact formatFixed2_no_slash d h2

/-- C5 counterexample: `re.match` anchors only at the start of the date and
the matched date is then used verbatim, so a record whose date begins with a
well-shaped date but continues with `../` yields a filename containing a
`../` segment — `generate_new_name` can produce a path-traversal candidate
name. -/
theorem generate_new_name_traversal_counterexample :
    generate_new_name { date := some "2024-01-15../e" } ".pdf" =
        "2024-01-15../e_UNKNOWN_UNKNOWN_UNKNOWN.pdf" ∧
      ['.', '.', '/'] <:+: (generate_new_name { date := some "2024-01-15../e" } ".pdf").toList := by
  constructor
  · rfl
  · decide

/-- C5 amended: for every record whose date (when present) and currency
contain no `/` character, and every original extension containing no `/`,
the filename returned by `generate_new_name` contains no `/` at all and in
particular no `../` segment.  (Unrestricted, the claim fails: the
counterexample routes `../` through the verbatim date; the currency and the
extension are likewise concatenated unsanitized.) -/
theorem generate_new_name_no_traversal (data : ReceiptData) (original_ext : String)
    (hdate : ∀ d, data.date = some d → '/' ∉ d.toList)
    (hcur : '/' ∉ data.currency.toList)
    (hext : '/' ∉ original_ext.toList) :
    ¬ ['.', '.', '/'] <:+: (generate_new_name data original_ext).toList := by
  intro hinf
  have hslash : '/' ∈ (generate_new_name data original_ext).toList :=
    hinf.subset (by decide)
  have hdp : '/' ∉ (datePart data.date).toList := by
    match hd : data.date with
    | none =>
      dsimp only [datePart]
      decide
    | some d =>
      dsimp only [datePart]
      by_cases hm : (!d.isEmpty && dateShapePrefix d) = true
      · rw [if_pos hm]
        exact hdate d hd
      · rw [if_neg hm]
        decide
  unfold generate_new_name at hslash
  rw [toList_append, toList_append, toList_append, toList_append, toList_append,
    toList_append, toList_append] at hslash
  rcases List.mem_append.mp hslash with h | h
  · rcases List.mem_append.mp h with h | h
    · rcases List.mem_append.mp h with h | h
      · rcases List.mem_append.mp h with h | h
        · rcases List.mem_append.mp h with h | h
          · rcases List.mem_append.mp h with h | h
            · rcases List.mem_append.mp h with h | h
              · exact hdp h
              · exact absurd h (by decide)
            · exact sanitize_no_slash data.provider 30 h
          · exact absurd h (by decide)
        · exact sanitize_no_slash data.patient 30 h
      · exact absurd h (by decide)
    · exact format_amount_no_slash data.amount data.currency hcur h
  · exact hext h

/-- C5 witness: the spec's end-to-end record yields a traversal-free name. -/
theorem generate_new_name_no_traversal_witness :
    ¬ ['.', '.', '/'] <:+:
      (generate_new_name
        { date := some "2024-01-15", provider := some "CVS Pharmacy",
          patient := some "John Doe", amount := some ⟨4599, 2⟩ } ".pdf").toList :=
  generate_new_name_no_traversal _ ".pdf"
    (by intro d hd; injection hd with h; subst h; decide) (by decide) (by decide)

theorem charsLe_trans :
    ∀ x y z : List Char, charsLe x y = true → charsLe y z = true → charsLe x z = true := by
  intro x
  induction x with
  | nil => intro y z h1 h2; rfl
  | cons a as ih =>
    intro y z h1 h2
    match y, z with
    | [], _ => exact absurd h1 (by simp [charsLe])
    | b :: bs, [] => exact absurd h2 (by simp [charsLe])
    | b :: bs, c :: cs =>
      simp only [charsLe] at h1 h2 ⊢
      by_cases hab : a.toNat < b.toNat
      · rw [if_pos hab] at h1
        by_cases hbc : b.toNat < c.toNat
        · rw [if_pos (by omega : a.toNat < c.toNat)]
        · rw [if_neg hbc] at h2
          by_cases hcb : c.toNat < b.toNat
          · rw [if_pos hcb] at h2
            exact absurd h2 (by decide)
          · rw [if_pos (by omega : a.toNat < c.toNat)]
      · rw [if_neg hab] at h1
        by_cases hba : b.toNat < a.toNat
        · rw [if_pos hba] at h1
          exact absurd h1 (by decide)
        · rw [if_neg hba] at h1
          by_cases hbc : b.toNat < c.toNat
          · rw [if_pos (by omega : a.toNat < c.toNat)]
          · rw [if_neg hbc] at h2
            by_cases hcb : c.toNat < b.toNat
            · rw [if_pos hcb] at h2
              exact absurd h2 (by decide)
            · rw [if_neg hcb] at h2
              rw [if_neg (by omega : ¬ a.toNat < c.toNat),
                if_neg (by omega : ¬ c.toNat < a.toNat)]
              exact ih bs cs h1 h2

theorem charsLe_total (x y : List Char) : charsLe x y = true ∨ charsLe y x = true := by
  induction x generalizing y with
  | nil => exact Or.inl rfl
  | cons a as ih =>
    match y with
    | [] => exact Or.inr rfl
    | b :: bs =>
      by_cases hab : a.toNat < b.toNat
      · exact Or.inl (by simp only [charsLe]; rw [if_pos hab])
      · by_cases hba : b.toNat < a.toNat
        · exact Or.inr (by simp only [charsLe]; rw [if_pos hba])
        · rcases ih bs with h | h
          · refine Or.inl ?_
            simp only [charsLe]
            rw [if_neg hab, if_neg hba]
            exact h
          · refine Or.inr ?_
            simp only [charsLe]
            rw [if_neg hba, if_neg hab]
            exact h

theorem insertSorted_perm (a : String) (l : List String) :
    List.Perm (insertSorted a l) (a :: l) := by
  induction l with
  | nil => exact List.Perm.refl _
  | cons b rest ih =>
    by_cases hab : strLe a b
    · rw [show insertSorted a (b :: rest) = a :: b :: rest by simp [insertSorted, hab]]
    · rw [show insertSorted a (b :: rest) = b :: insertSorted a rest by simp [insertSorted, hab]]
      exact (List.Perm.cons b ih).trans (List.Perm.swap a b rest)

theorem sortStrings_perm (l : List String) : List.Perm (sortStrings l) l := by
  induction l with
  | nil => exact List.Perm.refl _
  | cons a rest ih =>
    show List.Perm (insertSorted a (sortStrings rest)) _
    exact (insertSorted_perm a (sortStrings rest)).trans (List.Perm.cons a ih)

theorem insertSorted_pairwise (a : String) (l : List String)
    (h : List.Pairwise (fun x y => strLe x y = true) l) :
    List.Pairwise (fun x y => strLe x y = true) (insertSorted a l) := by
  induction l with
  | nil => exact List.pairwise_singleton _ a
  | cons b rest ih =>
    rcases List.pairwise_cons.mp h with ⟨hb, hrest⟩
    by_cases hab : strLe a b
    · rw [show insertSorted a (b :: rest) = a :: b :: rest by simp [insertSorted, hab]]
      refine List.pairwise_cons.mpr ⟨?_, h⟩
      intro y hy
      rcases List.mem_cons.mp hy with hyb | hyr
      · exact hyb ▸ hab
      · exact charsLe_trans _ _ _ hab (hb y hyr)
    · rw [show insertSorted a (b :: rest) = b :: insertSorted a rest by simp [insertSorted, hab]]
      refine List.pairwise_cons.mpr ⟨?_, ih hrest⟩
      intro y hy
      have hy2 := (insertSorted_perm a rest).mem_iff.mp hy
      rcases List.mem_cons.mp hy2 with hya | hyr
      · rw [hya]
        rcases charsLe_total a.toList b.toList with hl | hl
        · exact absurd hl hab
        · exact hl
      · exact hb y hyr

theorem sortStrings_pairwise (l : List String) :
    List.Pairwise (fun x y => strLe x y = true) (sortStrings l) := by
  induction l with
  | nil => exact List.Pairwise.nil
  | cons a rest ih => exact insertSorted_pairwise a (sortStrings rest) ih

theorem mem_discoverRaw_fold (listing : List String) :
    ∀ (exts : List String) (p : String),
      p ∈ exts.foldr
        (fun ext acc =>
          listing.filter (fun q => matchesGlob q ext) ++
            listing.filter (fun q => matchesGlob q (strUpper ext)) ++ acc)
        [] ↔
      p ∈ listing ∧ ∃ ext ∈ exts,
        (matchesGlob p ext = true ∨ matchesGlob p (strUpper ext) = true) := by
  intro exts
  induction exts with
  | nil => intro p; simp
  | cons e rest ih =>
    intro p
    simp only [List.foldr_cons, List.mem_append, List.mem_filter, ih p]
    constructor
    · rintro ((⟨hl, hm⟩ | ⟨hl, hm⟩) | ⟨hl, e2, he2, hm⟩)
      · exact ⟨hl, e, List.mem_cons_self e rest, Or.inl hm⟩
      · exact ⟨hl, e, List.mem_cons_self e rest, Or.inr hm⟩
      · exact ⟨hl, e2, List.mem_cons_of_mem e he2, hm⟩
    · rintro ⟨hl, e2, he2, hm⟩
      rcases List.mem_cons.mp he2 with he | he
      · subst he
        rcases hm with hm | hm
        · exact Or.inl (Or.inl ⟨hl, hm⟩)
        · exact Or.inl (Or.inr ⟨hl, hm⟩)
      · exact Or.inr ⟨hl, e2, he, hm⟩

/-- C7 counterexample: a file whose extension matches a supported extension
only under a mix of letter case (`a.Pdf`, extension `.Pdf`, lower-case form
`.pdf` in the supported set) is not discovered at all — the code scans only
the all-lower-case and all-upper-case extension forms. -/
theorem discover_files_mixed_case_counterexample :
    discover_files ["a.Pdf"] = [] ∧ matchesGlob "a.Pdf" ".Pdf" = true ∧
      strLower ".Pdf" = ".pdf" ∧ ".pdf" ∈ SUPPORTED_EXTENSIONS := by
  refine ⟨rfl, rfl, rfl, ?_⟩
  decide

/-- C7 amended: `discover_files` returns exactly the files of the recursive
listing whose final component ends with the all-lower-case or all-upper-case
form of a supported extension (not an arbitrary mix of case), each exactly
once, sorted. -/
theorem discover_files_spec (listing : List String) :
    (∀ p, p ∈ discover_files listing ↔
      p ∈ listing ∧ ∃ ext ∈ SUPPORTED_EXTENSIONS,
        (matchesGlob p ext = true ∨ matchesGlob p (strUpper ext) = true)) ∧
    (discover_files listing).Nodup ∧
    List.Pairwise (fun a b => strLe a b = true) (discover_files listing) := by
  refine ⟨?_, ?_, ?_⟩
  · intro p
    unfold discover_files
    rw [(sortStrings_perm _).mem_iff, List.mem_dedup]
    exact mem_discoverRaw_fold listing SUPPORTED_EXTENSIONS p
  · exact (sortStrings_perm _).symm.nodup (List.nodup_dedup _)
  · exact sortStrings_pairwise _

/-- C7 witness: a lower-case and an upper-case hit, discovered sorted and
deduplicated. -/
theorem discover_files_spec_witness :
    "a.pdf" ∈ discover_files ["b.JPG", "a.pdf", "c.txt"] ∧
      ¬ "c.txt" ∈ discover_files ["b.JPG", "a.pdf", "c.txt"] :=
  ⟨(discover_files_spec ["b.JPG", "a.pdf", "c.txt"]).1 "a.pdf" |>.mpr
      ⟨by decide, ".pdf", by decide, Or.inl (by decide)⟩,
    fun h => by
      have h2 := ((discover_files_spec ["b.JPG", "a.pdf", "c.txt"]).1 "c.txt").mp h
      revert h2
      decide⟩

/-- C9: in dry-run mode, for every file whose image bytes are obtained,
whose extraction yields a valid medical receipt, and which the operator does
not decline, `process_single_file` records the resolved final name in the
per-file outcome but performs no rename (the list of renames executed is
empty, leaving the filesystem unchanged). -/
theorem dry_run_reports_without_renaming {β : Type} (file_path : List String) (b : β)
    (extract : β → Except String ReceiptData) (dir_listing : List String)
    (verbose confirm : Bool) (response : String) (counter total : Nat)
    (data : ReceiptData) (new_name : String)
    (hex : extract b = .ok data)
    (hmed : data.is_medical_receipt = true)
    (hdecl : ¬(confirm = true ∧ pyStripLower response = "n"))
    (hres : resolve_conflict dir_listing
      (generate_new_name data (pathSuffix (file_path.getLastD ""))) = .ok new_name) :
    process_single_file file_path (some b) extract dir_listing true verbose confirm
        response counter total =
      .ok ({ file_path := file_path, data := some data, new_name := some new_name,
             error := none, skipped_reason := none }, counter + 1, []) := by
  have hcc : (confirm && (pyStripLower response == "n")) = false := by
    rcases Bool.eq_false_or_eq_true confirm with hc | hc
    · rw [hc]
      have hne : ¬pyStripLower response = "n" := fun h => hdecl ⟨hc, h⟩
      simp [hne]
    · rw [hc]
      rfl
  have hres2 : resolve_conflict dir_listing
      (generate_new_name data (pathSuffix (file_path.getLast?.getD ""))) = .ok new_name := by
    rw [← List.getLastD_eq_getLast?]
    exact hres
  simp [process_single_file, hex, hmed, hres, hres2, hcc]

/-- C9 witness: a concrete dry run records the resolved name and performs no
rename. -/
theorem dry_run_reports_without_renaming_witness :
    process_single_file ["tmp", "test.pdf"] (some ())
        (fun _ => .ok { date := some "2024-01-15", provider := some "CVS",
                        patient := some "John", amount := some ⟨4599, 2⟩ })
        [] true false true "y" 0 1 =
      .ok ({ file_path := ["tmp", "test.pdf"],
             data := some { date := some "2024-01-15", provider := some "CVS",
                            patient := some "John", amount := some ⟨4599, 2⟩ },
             new_name := some "2024-01-15_Cvs_John_USD45.99.pdf",
             error := none, skipped_reason := none }, 1, []) :=
  dry_run_reports_without_renaming ["tmp", "test.pdf"] () _ [] false true "y" 0 1 _
    "2024-01-15_Cvs_John_USD45.99.pdf" rfl rfl
    (by intro h; exact absurd h.2 (by decide)) (by rfl)

/-- C1 (code bug): when the image bytes are obtained and the extraction call
raises, `process_single_file` has no handler — the exception propagates out
of the per-file call instead of being converted into a per-file outcome
whose failure reason includes "extraction failed" (the repository's own test
`test_returns_error_when_extraction_fails` asserts the latter). -/
theorem extraction_error_propagates :
    process_single_file (β := Unit) ["tmp", "test.pdf"] (some ())
        (fun _ => .error "LLM error") [] true false false "" 0 1 =
      .error "LLM error" ∧
    ∀ r : ProcessResult × Nat × List (List String × String),
      process_single_file (β := Unit) ["tmp", "test.pdf"] (some ())
          (fun _ => .error "LLM error") [] true false false "" 0 1 ≠ .ok r := by
  refine ⟨rfl, fun r h => ?_⟩
  have h0 : process_single_file (β := Unit) ["tmp", "test.pdf"] (some ())
      (fun _ => .error "LLM error") [] true false false "" 0 1 =
      Except.error "LLM error" := rfl
  rw [h0] at h
  exact Except.noConfusion h

end ReceiptOrganizer
